import Mathlib

/-!
# Verification of the encrypted-notepad store (secure_notepad.py)

A shallow embedding of the password-protected note store of
`src/secure_notepad.py` and proofs of the specification's claims about it.

Conventions:
* Bytes are `Nat` values (kept below 256 by construction where it matters).
* Python strings are modelled as lists of Unicode scalar values (`List Nat`,
  each below 0x110000 and outside the surrogate range); lone surrogate code
  points, which Python `str` can technically carry, are outside the model.
* `hashlib.sha256` and `base64.urlsafe_b64encode` are standard algorithms
  (FIPS 180-4, RFC 4648) and are embedded in full so that `make_key` is the
  source's actual derivation.
* The external `cryptography.fernet` AEAD is modelled as an ideal
  authenticated cipher (see `fernetEncrypt` below).
-/

/-! ## SHA-256 (FIPS 180-4), as called by make_key (line 35) -/

/-- Right rotation of a 32-bit word held in a `Nat` below 2^32. -/
def rotr32 (n x : Nat) : Nat := ((x >>> n) ||| (x <<< (32 - n))) % 4294967296

/-- SHA-256 big sigma 0. -/
def bsig0 (x : Nat) : Nat := rotr32 2 x ^^^ rotr32 13 x ^^^ rotr32 22 x

/-- SHA-256 big sigma 1. -/
def bsig1 (x : Nat) : Nat := rotr32 6 x ^^^ rotr32 11 x ^^^ rotr32 25 x

/-- SHA-256 small sigma 0. -/
def ssig0 (x : Nat) : Nat := rotr32 7 x ^^^ rotr32 18 x ^^^ (x >>> 3)

/-- SHA-256 small sigma 1. -/
def ssig1 (x : Nat) : Nat := rotr32 17 x ^^^ rotr32 19 x ^^^ (x >>> 10)

/-- SHA-256 choice function; bitwise NOT on 32 bits is xor with 2^32 - 1. -/
def chF (x y z : Nat) : Nat := (x &&& y) ^^^ ((x ^^^ 4294967295) &&& z)

/-- SHA-256 majority function. -/
def majF (x y z : Nat) : Nat := (x &&& y) ^^^ (x &&& z) ^^^ (y &&& z)

/-- The 64 SHA-256 round constants of FIPS 180-4, written in decimal. -/
def shaK : List Nat :=
  [1116352408, 1899447441, 3049323471, 3921009573, 961987163, 1508970993,
   2453635748, 2870763221, 3624381080, 310598401, 607225278, 1426881987,
   1925078388, 2162078206, 2614888103, 3248222580, 3835390401, 4022224774,
   264347078, 604807628, 770255983, 1249150122, 1555081692, 1996064986,
   2554220882, 2821834349, 2952996808, 3210313671, 3336571891, 3584528711,
   113926993, 338241895, 666307205, 773529912, 1294757372, 1396182291,
   1695183700, 1986661051, 2177026350, 2456956037, 2730485921, 2820302411,
   3259730800, 3345764771, 3516065817, 3600352804, 4094571909, 275423344,
   430227734, 506948616, 659060556, 883997877, 958139571, 1322822218,
   1537002063, 1747873779, 1955562222, 2024104815, 2227730452, 2361852424,
   2428436474, 2756734187, 3204031479, 3329325298]

/-- The eight SHA-256 working variables. -/
structure Hash8 where
  a : Nat
  b : Nat
  c : Nat
  d : Nat
  e : Nat
  f : Nat
  g : Nat
  h : Nat

/-- Initial SHA-256 hash value. -/
def initH : Hash8 :=
  ⟨1779033703, 3144134277, 1013904242, 2773480762, 1359893119, 2600822924, 528734635, 1541459225⟩

/-- Big-endian 32-bit words from a byte list (groups of four). -/
def toWords : List Nat → List Nat
  | b0 :: b1 :: b2 :: b3 :: rest => (((b0 * 256 + b1) * 256 + b2) * 256 + b3) :: toWords rest
  | _ => []

/-- The next message-schedule word from the words produced so far. -/
def schedNext (w : List Nat) : Nat :=
  (ssig1 (w.getD (w.length - 2) 0) + w.getD (w.length - 7) 0 +
    ssig0 (w.getD (w.length - 15) 0) + w.getD (w.length - 16) 0) % 4294967296

/-- Extend the 16 chunk words by `k` further schedule words. -/
def schedule : Nat → List Nat → List Nat
  | 0, w => w
  | k + 1, w => schedule k (w ++ [schedNext w])

/-- The 64-word message schedule of one 64-byte chunk. -/
def msgSchedule (chunk : List Nat) : List Nat := schedule 48 (toWords chunk)

/-- One SHA-256 compression round, fed a (round constant, schedule word) pair. -/
def roundStep (s : Hash8) (kw : Nat × Nat) : Hash8 :=
  let t1 := (s.h + bsig1 s.e + chF s.e s.f s.g + kw.1 + kw.2) % 4294967296
  let t2 := (bsig0 s.a + majF s.a s.b s.c) % 4294967296
  ⟨(t1 + t2) % 4294967296, s.a, s.b, s.c, (s.d + t1) % 4294967296, s.e, s.f, s.g⟩

/-- Process one 64-byte chunk: 64 rounds, then add into the running hash. -/
def compressChunk (s : Hash8) (chunk : List Nat) : Hash8 :=
  let r := (shaK.zip (msgSchedule chunk)).foldl roundStep s
  ⟨(s.a + r.a) % 4294967296, (s.b + r.b) % 4294967296, (s.c + r.c) % 4294967296,
   (s.d + r.d) % 4294967296, (s.e + r.e) % 4294967296, (s.f + r.f) % 4294967296,
   (s.g + r.g) % 4294967296, (s.h + r.h) % 4294967296⟩

/-- Eight big-endian bytes of a 64-bit length-in-bits value. -/
def lenBytes (v : Nat) : List Nat :=
  [v / 72057594037927936 % 256, v / 281474976710656 % 256, v / 1099511627776 % 256,
   v / 4294967296 % 256, v / 16777216 % 256, v / 65536 % 256, v / 256 % 256, v % 256]

/-- SHA-256 padding: 0x80, zeros to 56 mod 64, then the 8-byte bit length. -/
def sha256pad (msg : List Nat) : List Nat :=
  msg ++ 0x80 :: (List.replicate ((119 - msg.length % 64) % 64) 0 ++ lenBytes (8 * msg.length))

/-- Split a byte list into 64-byte chunks; the fuel, set to the list length,
only makes the recursion structural and never runs out since every step
consumes at least one byte. -/
def chunks64Go : Nat → List Nat → List (List Nat)
  | 0, _ => []
  | _, [] => []
  | fuel + 1, b :: rest => ((b :: rest).take 64) :: chunks64Go fuel ((b :: rest).drop 64)

/-- Split a byte list into 64-byte chunks. -/
def chunks64 (l : List Nat) : List (List Nat) := chunks64Go l.length l

/-- Four big-endian bytes of a 32-bit word. -/
def wordBytes (w : Nat) : List Nat :=
  [w / 16777216 % 256, w / 65536 % 256, w / 256 % 256, w % 256]

/-- The SHA-256 digest (32 bytes) of a byte message. -/
def sha256 (msg : List Nat) : List Nat :=
  let s := (chunks64 (sha256pad msg)).foldl compressChunk initH
  wordBytes s.a ++ wordBytes s.b ++ wordBytes s.c ++ wordBytes s.d ++
    wordBytes s.e ++ wordBytes s.f ++ wordBytes s.g ++ wordBytes s.h

/-! ## URL-safe base64 (RFC 4648), as called by make_key (line 37) -/

/-- The URL-safe base64 alphabet: A-Z, a-z, 0-9, then 0x2D and 0x5F. -/
def b64Char (n : Nat) : Nat :=
  if n < 26 then 65 + n
  else if n < 52 then 97 + (n - 26)
  else if n < 62 then 48 + (n - 52)
  else if n = 62 then 45
  else 95

/-- URL-safe base64 encoding with padding (0x3D) of a byte list. -/
def b64urlsafe : List Nat → List Nat
  | a :: b :: c :: rest =>
      b64Char (a / 4) :: b64Char (a % 4 * 16 + b / 16) ::
        b64Char (b % 16 * 4 + c / 64) :: b64Char (c % 64) :: b64urlsafe rest
  | [a, b] => [b64Char (a / 4), b64Char (a % 4 * 16 + b / 16), b64Char (b % 16 * 4), 0x3D]
  | [a] => [b64Char (a / 4), b64Char (a % 4 * 16), 0x3D, 0x3D]
  | [] => []

/-! ## Password to key: make_key (lines 24-37) -/

/-- UTF-8 bytes of one Unicode scalar value, as Python str.encode produces. -/
def utf8Char (c : Nat) : List Nat :=
  if c < 0x80 then [c]
  else if c < 0x800 then [0xC0 + c / 64, 0x80 + c % 64]
  else if c < 0x10000 then [0xE0 + c / 4096, 0x80 + c / 64 % 64, 0x80 + c % 64]
  else [0xF0 + c / 262144, 0x80 + c / 4096 % 64, 0x80 + c / 64 % 64, 0x80 + c % 64]

/-- UTF-8 encoding of a string (list of scalar values): password.encode(). -/
def utf8Encode (s : List Nat) : List Nat := s.flatMap utf8Char

/-- make_key (secure_notepad.py lines 24-37): the Fernet key is the URL-safe
base64 encoding of the SHA-256 digest of the UTF-8 password. The function has
no salt, iteration-count, or file input: the password alone determines it. -/
def make_key (password : List Nat) : List Nat :=
  b64urlsafe (sha256 (utf8Encode password))

/-! ## The authenticated cipher

secure_notepad.py encrypts with `cryptography.fernet.Fernet` (line 17), an
external library, not repository code. Its contract (spec section 4.2) is an
AEAD: decryption under the sealing key recovers the plaintext, and any other
key or any modification of the token makes decryption raise InvalidToken.
Modelled from the spec: the library's AES-CBC + HMAC internals are replaced by
an ideal authenticated token. The token carries the sealing key, the fresh
nonce (standing for Fernet's random IV and timestamp) and the plaintext in a
length-delimited body, and the body is stored twice; `fernetDecrypt` demands
the two copies agree (the integrity check) and that the embedded key equal the
supplied key (the authentication check). This realizes exactly the AEAD
guarantees the claims rely on, no more. -/

/-- A byte list prefixed by two length bytes (base-256 big-endian). -/
def lenEnc (bs : List Nat) : List Nat := bs.length / 256 :: bs.length % 256 :: bs

/-- The authenticated body of an ideal Fernet token. -/
def fernetBody (key nonce pt : List Nat) : List Nat := lenEnc key ++ (lenEnc nonce ++ pt)

/-- Ideal model of Fernet(key).encrypt(pt): the authenticated body, twice. -/
def fernetEncrypt (key nonce pt : List Nat) : List Nat :=
  fernetBody key nonce pt ++ fernetBody key nonce pt

/-- Parse a token body under a candidate key: strip the embedded key (it must
equal the supplied key) and the nonce, and return the plaintext. -/
def parseFernetBody (key : List Nat) : List Nat → Option (List Nat)
  | kh :: kl :: rest =>
      let klen := kh * 256 + kl
      if rest.take klen = key then
        match rest.drop klen with
        | nh :: nl :: rest2 =>
            let nlen := nh * 256 + nl
            if nlen ≤ rest2.length then some (rest2.drop nlen) else none
        | _ => none
      else none
  | _ => none

/-- Ideal model of Fernet(key).decrypt(token): `none` is InvalidToken. -/
def fernetDecrypt (key token : List Nat) : Option (List Nat) :=
  if token.length % 2 = 0 ∧ token.take (token.length / 2) = token.drop (token.length / 2) then
    parseFernetBody key (token.take (token.length / 2))
  else none

/-! ## The note collection and its JSON serialization

load_notes returns json.loads of the decrypted plaintext (line 61), and
save_notes encrypts json.dumps of the list (line 73). Python json is stdlib;
the byte format below reproduces json.dumps with its defaults (separators
", " and ": ", ensure_ascii with lowercase hex escapes and surrogate pairs)
and a recursive-descent json.loads over the same grammar. The modelled
fragment of the JSON value space is null, booleans, integer numbers, strings,
arrays and objects; floats are outside the model (no claim touches them). -/

/-- A note as the program stores it: a dict with title and body strings. -/
structure Note where
  title : List Nat
  body : List Nat
deriving DecidableEq

/-- A parsed JSON value. -/
inductive Json where
  | null
  | bool (b : Bool)
  | num (n : Int)
  | str (s : List Nat)
  | arr (xs : List Json)
  | obj (kvs : List (List Nat × Json))

/-- The lowercase hex digit byte for a value below 16. -/
def hexDigit (d : Nat) : Nat := if d < 10 then 48 + d else 87 + d

/-- One character of json.dumps output with ensure_ascii (the default):
printable ASCII other than quote and backslash is literal, the two-character
shorthands cover quote, backslash and the five C0 controls that have one, any
other BMP code point becomes a lowercase \uXXXX escape, and astral code
points become a surrogate pair of two escapes. -/
def pyEscape (c : Nat) : List Nat :=
  if c = 0x22 then [0x5C, 0x22]
  else if c = 0x5C then [0x5C, 0x5C]
  else if c = 8 then [0x5C, 0x62]
  else if c = 12 then [0x5C, 0x66]
  else if c = 10 then [0x5C, 0x6E]
  else if c = 13 then [0x5C, 0x72]
  else if c = 9 then [0x5C, 0x74]
  else if 0x20 ≤ c ∧ c ≤ 0x7E then [c]
  else if c < 0x10000 then
    [0x5C, 0x75, hexDigit (c / 4096 % 16), hexDigit (c / 256 % 16),
     hexDigit (c / 16 % 16), hexDigit (c % 16)]
  else
    [0x5C, 0x75,
     hexDigit ((0xD800 + (c - 0x10000) / 1024) / 4096 % 16),
     hexDigit ((0xD800 + (c - 0x10000) / 1024) / 256 % 16),
     hexDigit ((0xD800 + (c - 0x10000) / 1024) / 16 % 16),
     hexDigit ((0xD800 + (c - 0x10000) / 1024) % 16),
     0x5C, 0x75,
     hexDigit ((0xDC00 + (c - 0x10000) % 1024) / 4096 % 16),
     hexDigit ((0xDC00 + (c - 0x10000) % 1024) / 256 % 16),
     hexDigit ((0xDC00 + (c - 0x10000) % 1024) / 16 % 16),
     hexDigit ((0xDC00 + (c - 0x10000) % 1024) % 16)]

/-- A JSON string literal: quote, escaped characters, quote. -/
def dumpString (s : List Nat) : List Nat := 0x22 :: (s.flatMap pyEscape ++ [0x22])

/-- The bytes of the object key "title". -/
def titleKey : List Nat := [0x74, 0x69, 0x74, 0x6C, 0x65]

/-- The bytes of the object key "body". -/
def bodyKey : List Nat := [0x62, 0x6F, 0x64, 0x79]

/-- json.dumps of one note dict, with Python's default separators. -/
def dumpNote (n : Note) : List Nat :=
  0x7B :: (dumpString titleKey ++ (0x3A :: 0x20 :: (dumpString n.title ++
    (0x2C :: 0x20 :: (dumpString bodyKey ++ (0x3A :: 0x20 :: (dumpString n.body ++ [0x7D])))))))

/-- The comma-separated note objects inside the dumped list. -/
def dumpItems : List Note → List Nat
  | [] => []
  | [n] => dumpNote n
  | n :: rest => dumpNote n ++ (0x2C :: 0x20 :: dumpItems rest)

/-- json.dumps (line 73) of the note list, as bytes (the output is ASCII). -/
def json_dumps (notes : List Note) : List Nat := 0x5B :: (dumpItems notes ++ [0x5D])

/-! ### json.loads (line 61): a recursive-descent parser over the bytes -/

/-- Skip JSON whitespace. -/
def skipWs : List Nat → List Nat
  | c :: rest => if c = 0x20 ∨ c = 9 ∨ c = 10 ∨ c = 13 then skipWs rest else c :: rest
  | [] => []

/-- The value of one hex digit byte (either case), if it is one. -/
def hexVal (c : Nat) : Option Nat :=
  if 48 ≤ c ∧ c ≤ 57 then some (c - 48)
  else if 97 ≤ c ∧ c ≤ 102 then some (c - 87)
  else if 65 ≤ c ∧ c ≤ 70 then some (c - 55)
  else none

/-- The value of a four-hex-digit escape, if all four bytes are hex digits. -/
def hex4Val (a b c d : Nat) : Option Nat :=
  match hexVal a, hexVal b, hexVal c, hexVal d with
  | some x, some y, some z, some w => some (((x * 16 + y) * 16 + z) * 16 + w)
  | _, _, _, _ => none

/-- The character replacing a shorthand escape, if the byte introduces one. -/
def escShort (e : Nat) : Option Nat :=
  if e = 0x22 then some 0x22
  else if e = 0x5C then some 0x5C
  else if e = 0x2F then some 0x2F
  else if e = 0x62 then some 8
  else if e = 0x66 then some 12
  else if e = 0x6E then some 10
  else if e = 0x72 then some 13
  else if e = 0x74 then some 9
  else none

/-- Parse a string body up to its closing quote, decoding escapes; a \uXXXX
high surrogate immediately followed by a \uXXXX low surrogate combines into
one astral character, as Python json.loads does. The fuel only makes the
recursion structural; every step consumes at least one input byte, so fuel
set to the input length plus one (as at every call site) never runs out. -/
def parseStrBody : Nat → List Nat → Option (List Nat × List Nat)
  | 0, _ => none
  | _, [] => none
  | fuel + 1, c :: rest =>
    if c = 0x22 then some ([], rest)
    else if c = 0x5C then
      match rest with
      | 0x75 :: a :: b :: d :: e :: r2 =>
        match hex4Val a b d e with
        | none => none
        | some n =>
          if 0xD800 ≤ n ∧ n ≤ 0xDBFF then
            match r2 with
            | 0x5C :: 0x75 :: a2 :: b2 :: d2 :: e2 :: r3 =>
              match hex4Val a2 b2 d2 e2 with
              | some m =>
                if 0xDC00 ≤ m ∧ m ≤ 0xDFFF then
                  (parseStrBody fuel r3).map
                    (fun p => ((0x10000 + (n - 0xD800) * 1024 + (m - 0xDC00)) :: p.1, p.2))
                else
                  (parseStrBody fuel (0x5C :: 0x75 :: a2 :: b2 :: d2 :: e2 :: r3)).map
                    (fun p => (n :: p.1, p.2))
              | none =>
                  (parseStrBody fuel (0x5C :: 0x75 :: a2 :: b2 :: d2 :: e2 :: r3)).map
                    (fun p => (n :: p.1, p.2))
            | other => (parseStrBody fuel other).map (fun p => (n :: p.1, p.2))
          else (parseStrBody fuel r2).map (fun p => (n :: p.1, p.2))
      | e :: r2 =>
        match escShort e with
        | some ch => (parseStrBody fuel r2).map (fun p => (ch :: p.1, p.2))
        | none => none
      | [] => none
    else (parseStrBody fuel rest).map (fun p => (c :: p.1, p.2))

/-- Take a leading run of decimal digit bytes. -/
def takeDigits : List Nat → List Nat × List Nat
  | c :: rest =>
      if 48 ≤ c ∧ c ≤ 57 then
        let p := takeDigits rest
        (c :: p.1, p.2)
      else ([], c :: rest)
  | [] => ([], [])

/-- The number denoted by a digit-byte run. -/
def digitsVal (ds : List Nat) : Nat := ds.foldl (fun acc d => acc * 10 + (d - 48)) 0

/-- Parse an integer JSON number (the modelled fragment has no floats). -/
def parseNum (cs : List Nat) : Option (Int × List Nat) :=
  match cs with
  | 0x2D :: rest =>
      match takeDigits rest with
      | ([], _) => none
      | (ds, r) => some (-(digitsVal ds : Int), r)
  | _ =>
      match takeDigits cs with
      | ([], _) => none
      | (ds, r) => some ((digitsVal ds : Int), r)

mutual

/-- Parse one JSON value; the fuel decreases on every nested parse call and
is set from the input length at top level. -/
def parseVal : Nat → List Nat → Option (Json × List Nat)
  | 0, _ => none
  | fuel + 1, cs =>
    match skipWs cs with
    | [] => none
    | c :: r =>
      if c = 0x6E then
        match r with
        | 0x75 :: 0x6C :: 0x6C :: r2 => some (.null, r2)
        | _ => none
      else if c = 0x74 then
        match r with
        | 0x72 :: 0x75 :: 0x65 :: r2 => some (.bool true, r2)
        | _ => none
      else if c = 0x66 then
        match r with
        | 0x61 :: 0x6C :: 0x73 :: 0x65 :: r2 => some (.bool false, r2)
        | _ => none
      else if c = 0x22 then (parseStrBody (r.length + 1) r).map (fun p => (.str p.1, p.2))
      else if c = 0x5B then
        match skipWs r with
        | 0x5D :: r2 => some (.arr [], r2)
        | r2 => (parseElems fuel r2).map (fun p => (.arr p.1, p.2))
      else if c = 0x7B then
        match skipWs r with
        | 0x7D :: r2 => some (.obj [], r2)
        | r2 => (parseMembers fuel r2).map (fun p => (.obj p.1, p.2))
      else if c = 0x2D ∨ (48 ≤ c ∧ c ≤ 57) then
        (parseNum (c :: r)).map (fun p => (.num p.1, p.2))
      else none

/-- Parse one or more comma-separated array elements and the closing bracket. -/
def parseElems : Nat → List Nat → Option (List Json × List Nat)
  | 0, _ => none
  | fuel + 1, cs =>
    match parseVal fuel cs with
    | none => none
    | some (v, r) =>
      match skipWs r with
      | 0x2C :: r2 => (parseElems fuel r2).map (fun p => (v :: p.1, p.2))
      | 0x5D :: r2 => some ([v], r2)
      | _ => none

/-- Parse one or more comma-separated object members and the closing brace. -/
def parseMembers : Nat → List Nat → Option (List (List Nat × Json) × List Nat)
  | 0, _ => none
  | fuel + 1, cs =>
    match skipWs cs with
    | 0x22 :: r =>
      match parseStrBody (r.length + 1) r with
      | none => none
      | some (key, r1) =>
        match skipWs r1 with
        | 0x3A :: r2 =>
          match parseVal fuel r2 with
          | none => none
          | some (v, r3) =>
            match skipWs r3 with
            | 0x2C :: r4 => (parseMembers fuel r4).map (fun p => ((key, v) :: p.1, p.2))
            | 0x7D :: r4 => some ([(key, v)], r4)
            | _ => none
        | _ => none
    | _ => none

end

/-- json.loads of a byte payload: parse one value and demand only whitespace
after it; `none` is a JSONDecodeError (uncaught by secure_notepad.py). -/
def json_loads (bs : List Nat) : Option Json :=
  match parseVal (bs.length + 1) bs with
  | some (j, r) => if skipWs r = [] then some j else none
  | none => none

/-! ## The store operations (load_notes, save_notes, and the app methods) -/

/-- How a call to load_notes can end, as main (lines 282-287) observes it:
`ok` returns the parsed JSON value unchecked, `invalidToken` is the
InvalidToken raised by Fernet.decrypt, shown to the user as the single
"wrong password or corrupt file" outcome, and `jsonError` is a
json.JSONDecodeError, which nothing in secure_notepad.py catches. -/
inductive LoadResult where
  | ok (j : Json)
  | invalidToken
  | jsonError

/-- load_notes (lines 40-61): an absent file yields the empty list without
touching the cipher; otherwise decrypt the file bytes and return whatever
json.loads makes of the plaintext, with no schema check of any kind. -/
def load_notes (key : List Nat) (file : Option (List Nat)) : LoadResult :=
  match file with
  | none => .ok (Json.arr [])
  | some data =>
    match fernetDecrypt key data with
    | none => .invalidToken
    | some pt =>
      match json_loads pt with
      | none => .jsonError
      | some j => .ok j

/-- save_notes (lines 64-77): the bytes written to the store file, namely the
Fernet token over json.dumps of the list. The nonce argument stands for the
fresh randomness Fernet draws per encrypt call. -/
def save_notes (notes : List Note) (key nonce : List Nat) : List Nat :=
  fernetEncrypt key nonce (json_dumps notes)

/-- main (lines 279-284) derives the key from the password alone, before and
independently of reading the store file; the file argument is unused because
nothing of the file (no salt, no header) flows into the derivation. -/
def keyForOpen (password : List Nat) (file : Option (List Nat)) : List Nat :=
  make_key password

/-- The JSON value json.dumps/json.loads give one note dict. -/
def noteJson (n : Note) : Json := .obj [(titleKey, .str n.title), (bodyKey, .str n.body)]

/-- The JSON value of a whole note collection. -/
def notesJson (notes : List Note) : Json := .arr (notes.map noteJson)

/-- Read one note back out of a JSON value, demanding the exact
title-and-body object shape the program writes. -/
def jsonToNote : Json → Option Note
  | .obj [(k1, .str t), (k2, .str b)] =>
      if k1 = titleKey ∧ k2 = bodyKey then some ⟨t, b⟩ else none
  | _ => none

/-- Read a whole collection back, failing on any non-note element: the
note-schema reading of a decoded JSON value. -/
def jsonToNotes : Json → Option (List Note)
  | .arr xs => xs.mapM jsonToNote
  | _ => none

/-- A code point Python str can hold and json round-trips exactly: a Unicode
scalar value (lone surrogates are outside the model, see the header). -/
def ValidChar (c : Nat) : Prop := c < 0x110000 ∧ ¬(0xD800 ≤ c ∧ c ≤ 0xDFFF)

/-- All characters of a string are valid. -/
def ValidStr (s : List Nat) : Prop := ∀ c ∈ s, ValidChar c

/-- Both fields of a note are valid strings. -/
def ValidNote (n : Note) : Prop := ValidStr n.title ∧ ValidStr n.body

instance : DecidablePred ValidChar := fun c => by unfold ValidChar; infer_instance

instance : DecidablePred ValidStr := fun s => by unfold ValidStr; infer_instance

instance (n : Note) : Decidable (ValidNote n) := by unfold ValidNote; infer_instance

/-- The one kind of exception the modelled methods can raise. -/
inductive PyErr where
  | indexError
deriving DecidableEq

/-- The state the running app owns: the in-memory list and the store file. -/
structure AppState where
  notes : List Note
  file : Option (List Nat)
deriving DecidableEq

/-- save_new_note (lines 161-168): append the new note, then save_notes. -/
def save_new_note (s : AppState) (t b key nonce : List Nat) : AppState :=
  let ns := s.notes ++ [⟨t, b⟩]
  { notes := ns, file := some (save_notes ns key nonce) }

/-- save_edited_note (lines 182-189): the item assignment notes[idx] = ...
raises IndexError when idx is out of range (indices from curselection are
never negative), in which case nothing is mutated and save_notes never runs;
otherwise the note is replaced and the file rewritten. -/
def save_edited_note (s : AppState) (idx : Nat) (t b key nonce : List Nat) :
    AppState × Option PyErr :=
  if idx < s.notes.length then
    let ns := s.notes.set idx ⟨t, b⟩
    ({ notes := ns, file := some (save_notes ns key nonce) }, none)
  else (s, some .indexError)

/-- delete_note (lines 191-204): del notes[idx] raises IndexError when idx is
out of range, mutating nothing and skipping save_notes; otherwise the note is
removed and the file rewritten. -/
def delete_note (s : AppState) (idx : Nat) (key nonce : List Nat) :
    AppState × Option PyErr :=
  if idx < s.notes.length then
    let ns := s.notes.eraseIdx idx
    ({ notes := ns, file := some (save_notes ns key nonce) }, none)
  else (s, some .indexError)

/-! ## The write path of save_notes on the file system

save_notes (lines 76-77) runs open(NOTES_FILE, "wb") followed by one write.
Opening with mode "wb" truncates the file in place; there is no temporary
file, no flush/fsync discipline, and no rename anywhere in the program, so
the trace type below has no such operations to contain. -/

/-- The file-system operations save_notes performs on notes.enc. -/
inductive FsOp where
  | openTrunc
  | writeAll (bs : List Nat)
deriving DecidableEq

/-- The exact operation sequence of save_notes for a given token. -/
def save_notes_fsTrace (token : List Nat) : List FsOp :=
  [.openTrunc, .writeAll token]

/-- The effect of one operation on the store file's contents. -/
def applyFsOp (file : Option (List Nat)) : FsOp → Option (List Nat)
  | .openTrunc => some []
  | .writeAll bs => some bs

/-- Run a whole operation sequence against the file. -/
def runFs (file : Option (List Nat)) (ops : List FsOp) : Option (List Nat) :=
  ops.foldl applyFsOp file

/-- The file contents if the process dies after the first `k` operations. -/
def crashAfter (file : Option (List Nat)) (ops : List FsOp) (k : Nat) : Option (List Nat) :=
  runFs file (ops.take k)

/-- Flip bit `i mod 8` of byte `i / 8` of a byte list (the tampering step of
the tamper-detection claim). -/
def flipBit (bs : List Nat) (i : Nat) : List Nat :=
  bs.take (i / 8) ++ (bs.getD (i / 8) 0 ^^^ (1 <<< (i % 8))) :: bs.drop (i / 8 + 1)

/-- The two-note collection used by the C10 witness. -/
def demoNotes : List Note := [⟨[1], [2]⟩, ⟨[3], [4]⟩]

/-- The app state used by the C10 witness. -/
def demoState : AppState := ⟨demoNotes, none⟩

/-! ## Helper lemmas: the cipher -/

/-- Parsing a well-formed body under the sealing key recovers the plaintext. -/
theorem parseFernetBody_same (key nonce pt : List Nat) :
    parseFernetBody key (fernetBody key nonce pt) = some pt := by
  show parseFernetBody key (lenEnc key ++ (lenEnc nonce ++ pt)) = some pt
  simp only [lenEnc, List.cons_append, parseFernetBody]
  rw [Nat.div_add_mod']
  rw [List.take_left' rfl, List.drop_left' rfl]
  simp only [List.cons_append]
  rw [Nat.div_add_mod']
  simp [List.drop_left' rfl]

/-- Parsing a well-formed body under any other key fails. -/
theorem parseFernetBody_other (k1 k2 nonce pt : List Nat) (h : k1 ≠ k2) :
    parseFernetBody k2 (fernetBody k1 nonce pt) = none := by
  show parseFernetBody k2 (lenEnc k1 ++ (lenEnc nonce ++ pt)) = none
  simp only [lenEnc, List.cons_append, parseFernetBody]
  rw [Nat.div_add_mod']
  rw [List.take_left' rfl]
  rw [if_neg (fun hk => h hk)]

/-- The two halves of an untampered token check out and expose the body. -/
theorem fernetDecrypt_body (key : List Nat) (b : List Nat) :
    fernetDecrypt key (b ++ b) = parseFernetBody key b := by
  unfold fernetDecrypt
  have hlen : (b ++ b).length = 2 * b.length := by simp [List.length_append]; ring
  rw [hlen, Nat.mul_div_cancel_left _ (by norm_num)]
  rw [List.take_left' rfl, List.drop_left' rfl]
  simp

/-- Decryption under the sealing key recovers the plaintext. -/
theorem fernet_roundtrip (key nonce pt : List Nat) :
    fernetDecrypt key (fernetEncrypt key nonce pt) = some pt := by
  unfold fernetEncrypt
  rw [fernetDecrypt_body, parseFernetBody_same]

/-- Decryption under any other key fails closed. -/
theorem fernet_wrong_key (k1 k2 nonce pt : List Nat) (h : k1 ≠ k2) :
    fernetDecrypt k2 (fernetEncrypt k1 nonce pt) = none := by
  unfold fernetEncrypt
  rw [fernetDecrypt_body, parseFernetBody_other k1 k2 nonce pt h]

/-! ## Helper lemmas: digest and key lengths -/

/-- The SHA-256 digest always has 32 bytes. -/
theorem sha256_length (msg : List Nat) : (sha256 msg).length = 32 := by
  simp [sha256, wordBytes]

/-- Base64 output length: four bytes per started three-byte group. -/
theorem b64_length (l : List Nat) : (b64urlsafe l).length = 4 * ((l.length + 2) / 3) := by
  induction l using b64urlsafe.induct with
  | case1 a b c rest ih => simp only [b64urlsafe, List.length_cons]; omega
  | case2 a b => simp [b64urlsafe]
  | case3 a => simp [b64urlsafe]
  | case4 => simp [b64urlsafe]

/-- Every base64 output byte is ASCII (below 128). -/
theorem b64_bytes_lt (l : List Nat) : ∀ x ∈ b64urlsafe l, x < 128 := by
  have hc : ∀ n, b64Char n < 128 := by
    intro n; unfold b64Char; split_ifs <;> omega
  induction l using b64urlsafe.induct with
  | case1 a b c rest ih =>
      intro x hx
      simp only [b64urlsafe, List.mem_cons] at hx
      rcases hx with rfl | rfl | rfl | rfl | hx
      · exact hc _
      · exact hc _
      · exact hc _
      · exact hc _
      · exact ih x hx
  | case2 a b =>
      intro x hx
      simp only [b64urlsafe, List.mem_cons] at hx
      rcases hx with rfl | rfl | rfl | rfl | hx
      · exact hc _
      · exact hc _
      · exact hc _
      · omega
      · simp at hx
  | case3 a =>
      intro x hx
      simp only [b64urlsafe, List.mem_cons] at hx
      rcases hx with rfl | rfl | rfl | rfl | hx
      · exact hc _
      · exact hc _
      · omega
      · omega
      · simp at hx
  | case4 => intro x hx; simp [b64urlsafe] at hx

/-- Every derived Fernet key has 44 bytes. -/
theorem make_key_length (p : List Nat) : (make_key p).length = 44 := by
  unfold make_key
  rw [b64_length, sha256_length]

/-! ## Helper lemmas: tampering -/

/-- Flipping one bit changes the byte. -/
theorem xor_bit_ne (x j : Nat) : x ^^^ (1 <<< j) ≠ x := by
  intro h
  have hm : x ^^^ (x ^^^ (1 <<< j)) = 1 <<< j := by
    rw [← Nat.xor_assoc, Nat.xor_self, Nat.zero_xor]
  rw [h, Nat.xor_self] at hm
  have hp : 0 < 1 <<< j := by
    rw [Nat.shiftLeft_eq, one_mul]
    exact Nat.pos_pow_of_pos j (by omega)
  omega

/-- Flipping a bit inside the list preserves its length. -/
theorem flipBit_length (t : List Nat) (i : Nat) (h : i / 8 < t.length) :
    (flipBit t i).length = t.length := by
  unfold flipBit
  simp only [List.length_append, List.length_take, List.length_cons, List.length_drop]
  omega

/-- Reading the flipped list: the flipped byte at its position, the original
list everywhere else. -/
theorem flipBit_getElem? (t : List Nat) (i q : Nat) (hp : i / 8 < t.length) :
    (flipBit t i)[q]? =
      if q = i / 8 then some (t.getD (i / 8) 0 ^^^ (1 <<< (i % 8))) else t[q]? := by
  unfold flipBit
  rcases Nat.lt_trichotomy q (i / 8) with hlt | heq | hgt
  · rw [if_neg (by omega)]
    rw [List.getElem?_append, if_pos (by simp only [List.length_take]; omega)]
    exact List.getElem?_take_of_lt hlt
  · subst heq
    rw [if_pos rfl]
    rw [List.getElem?_append_right (by simp only [List.length_take]; omega)]
    simp [List.length_take, Nat.min_eq_left (Nat.le_of_lt hp)]
  · rw [if_neg (by omega)]
    rw [List.getElem?_append_right (by simp only [List.length_take]; omega)]
    have hq : q - (List.take (i / 8) t).length = q - i / 8 := by
      simp [List.length_take, Nat.min_eq_left (Nat.le_of_lt hp)]
    rw [hq]
    have h1 : q - i / 8 = (q - i / 8 - 1) + 1 := by omega
    rw [h1]
    simp only [List.getElem?_cons_succ]
    rw [List.getElem?_drop]
    congr 1
    omega

/-- Flipping any single bit of a token makes decryption fail for every key:
the flip lands in one of the two body copies and the equality check of the
halves can no longer succeed. -/
theorem fernet_flip_none (key2 k nonce pt : List Nat) (i : Nat)
    (hi : i < 8 * (fernetEncrypt k nonce pt).length) :
    fernetDecrypt key2 (flipBit (fernetEncrypt k nonce pt) i) = none := by
  have hL : (fernetEncrypt k nonce pt).length = 2 * (fernetBody k nonce pt).length := by
    unfold fernetEncrypt
    simp [List.length_append]
    ring
  set b := fernetBody k nonce pt with hb
  set L := b.length with hLdef
  set t := fernetEncrypt k nonce pt with htdef
  have htb : t = b ++ b := rfl
  have hp : i / 8 < 2 * L := by omega
  have hpt : i / 8 < t.length := by omega
  have hflen : (flipBit t i).length = 2 * L := by rw [flipBit_length t i hpt, hL]
  have hL0 : 0 < L := by omega
  have hxa : t[i / 8]? = some (t.getD (i / 8) 0) := by
    rw [List.getD_eq_getElem?_getD, List.getElem?_eq_getElem hpt]
    rfl
  have hne : ¬ ((flipBit t i).take ((flipBit t i).length / 2)
      = (flipBit t i).drop ((flipBit t i).length / 2)) := by
    rw [hflen, Nat.mul_div_cancel_left _ (by omega)]
    intro heq
    rcases Nat.lt_or_ge (i / 8) L with hc | hc
    · have h1 := congrArg (fun l => l[i / 8]?) heq
      simp only at h1
      rw [List.getElem?_take, if_pos hc, List.getElem?_drop] at h1
      rw [flipBit_getElem? t i _ hpt, if_pos rfl] at h1
      rw [flipBit_getElem? t i _ hpt, if_neg (by omega)] at h1
      have heq2 : t[L + i / 8]? = t[i / 8]? := by
        rw [htb, List.getElem?_append_right (by simp only [← hLdef]; omega)]
        rw [List.getElem?_append, if_pos (by omega)]
        congr 1
        omega
      rw [heq2, hxa] at h1
      exact xor_bit_ne _ _ (Option.some.inj h1)
    · have h1 := congrArg (fun l => l[i / 8 - L]?) heq
      simp only at h1
      rw [List.getElem?_take, if_pos (by omega), List.getElem?_drop] at h1
      have hLq : L + (i / 8 - L) = i / 8 := by omega
      rw [hLq] at h1
      rw [flipBit_getElem? t i _ hpt, if_neg (by omega)] at h1
      rw [flipBit_getElem? t i _ hpt, if_pos rfl] at h1
      have heq3 : t[i / 8 - L]? = t[i / 8]? := by
        rw [htb, List.getElem?_append, if_pos (by simp only [← hLdef]; omega)]
        rw [List.getElem?_append_right (by simp only [← hLdef]; omega)]
      rw [heq3, hxa] at h1
      exact xor_bit_ne _ _ (Option.some.inj h1.symm)
  unfold fernetDecrypt
  rw [if_neg (fun hcon => hne hcon.2)]

/-! ## Helper lemmas: the JSON codec round trip -/

/-- skipWs passes any non-whitespace head untouched. -/
theorem skipWs_cons (c : Nat) (r : List Nat) (h : ¬(c = 0x20 ∨ c = 9 ∨ c = 10 ∨ c = 13)) :
    skipWs (c :: r) = c :: r := by
  simp only [skipWs, if_neg h]

/-- Parsing one emitted hex digit recovers its value. -/
theorem hexVal_hexDigit (d : Nat) (h : d < 16) : hexVal (hexDigit d) = some d := by
  unfold hexVal hexDigit
  split_ifs <;> first | (exact congrArg some (by omega)) | (exfalso; omega)

/-- Parsing the four emitted hex digits of a BMP value recovers it. -/
theorem hex4Val_hexDigits (n : Nat) (h : n < 65536) :
    hex4Val (hexDigit (n / 4096 % 16)) (hexDigit (n / 256 % 16))
      (hexDigit (n / 16 % 16)) (hexDigit (n % 16)) = some n := by
  unfold hex4Val
  rw [hexVal_hexDigit _ (Nat.mod_lt _ (by omega)), hexVal_hexDigit _ (Nat.mod_lt _ (by omega)),
    hexVal_hexDigit _ (Nat.mod_lt _ (by omega)), hexVal_hexDigit _ (Nat.mod_lt _ (by omega))]
  exact congrArg some (by omega)

/-- A \\uXXXX escape followed by anything but a low surrogate escape parses
to its own value when that value is not a high surrogate. -/
theorem parseStrBody_u_esc (fuel a b d e n : Nat) (t : List Nat)
    (hx : hex4Val a b d e = some n) (hns : ¬(0xD800 ≤ n ∧ n ≤ 0xDBFF)) :
    parseStrBody (fuel + 1) (0x5C :: 0x75 :: a :: b :: d :: e :: t)
      = (parseStrBody fuel t).map (fun p => (n :: p.1, p.2)) := by
  simp only [parseStrBody]
  rw [if_neg (show ¬((0x5C : Nat) = 0x22) from by decide)]
  rw [if_pos True.intro]
  simp only [hx]
  rw [if_neg hns]

/-- A high surrogate escape followed by a low surrogate escape parses to the
combined astral value. -/
theorem parseStrBody_surr_esc (fuel a b d e a2 b2 d2 e2 n m : Nat) (t : List Nat)
    (hx1 : hex4Val a b d e = some n) (hhi : 0xD800 ≤ n ∧ n ≤ 0xDBFF)
    (hx2 : hex4Val a2 b2 d2 e2 = some m) (hlo : 0xDC00 ≤ m ∧ m ≤ 0xDFFF) :
    parseStrBody (fuel + 1)
      (0x5C :: 0x75 :: a :: b :: d :: e :: 0x5C :: 0x75 :: a2 :: b2 :: d2 :: e2 :: t)
      = (parseStrBody fuel t).map
          (fun p => ((0x10000 + (n - 0xD800) * 1024 + (m - 0xDC00)) :: p.1, p.2)) := by
  simp only [parseStrBody]
  rw [if_neg (show ¬((0x5C : Nat) = 0x22) from by decide)]
  rw [if_pos True.intro]
  simp only [hx1]
  rw [if_pos hhi]
  simp only [hx2]
  rw [if_pos hlo]

/-- Parsing one escaped character undoes the escaping and costs one fuel. -/
theorem parseStrBody_escape (c : Nat) (hv : ValidChar c) (t : List Nat) (fuel : Nat) :
    parseStrBody (fuel + 1) (pyEscape c ++ t)
      = (parseStrBody fuel t).map (fun p => (c :: p.1, p.2)) := by
  obtain ⟨hlt, hsur⟩ := hv
  unfold pyEscape
  split_ifs with h1 h2 h3 h4 h5 h6 h7 h8 h9
  · subst h1; simp [parseStrBody, escShort]
  · subst h2; simp [parseStrBody, escShort]
  · subst h3; simp [parseStrBody, escShort]
  · subst h4; simp [parseStrBody, escShort]
  · subst h5; simp [parseStrBody, escShort]
  · subst h6; simp [parseStrBody, escShort]
  · subst h7; simp [parseStrBody, escShort]
  · simp [parseStrBody, h1, h2]
  · simp only [List.cons_append, List.nil_append]
    exact parseStrBody_u_esc fuel _ _ _ _ c t (hex4Val_hexDigits c h9) (by omega)
  · simp only [List.cons_append, List.nil_append]
    rw [parseStrBody_surr_esc fuel _ _ _ _ _ _ _ _
      (0xD800 + (c - 0x10000) / 1024) (0xDC00 + (c - 0x10000) % 1024) t
      (hex4Val_hexDigits _ (by omega)) (by constructor <;> omega)
      (hex4Val_hexDigits _ (by omega)) (by constructor <;> omega)]
    have hc : 0x10000 + (0xD800 + (c - 0x10000) / 1024 - 0xD800) * 1024 +
        (0xDC00 + (c - 0x10000) % 1024 - 0xDC00) = c := by omega
    rw [hc]

/-- Parsing a whole dumped string body stops exactly at the closing quote. -/
theorem parseStrBody_dumped (s : List Nat) (hs : ValidStr s) :
    ∀ (fuel : Nat) (rest : List Nat),
      parseStrBody (s.length + fuel + 1) (s.flatMap pyEscape ++ 0x22 :: rest) = some (s, rest) := by
  induction s with
  | nil =>
      intro fuel rest
      simp [parseStrBody]
  | cons c s ih =>
      intro fuel rest
      have hvc : ValidChar c := hs c (by simp)
      have htail : ValidStr s := fun x hx => hs x (by simp [hx])
      rw [List.flatMap_cons, List.append_assoc]
      have hlen : (c :: s).length + fuel + 1 = (s.length + fuel + 1) + 1 := by simp; omega
      rw [hlen, parseStrBody_escape c hvc _ _, ih htail fuel rest]
      rfl

/-- Every escape produces at least one byte. -/
theorem pyEscape_length_pos (c : Nat) : 1 ≤ (pyEscape c).length := by
  unfold pyEscape
  split_ifs <;> simp

/-- A dumped string body is at least as long as the string. -/
theorem flatMap_pyEscape_length (s : List Nat) : s.length ≤ (s.flatMap pyEscape).length := by
  induction s with
  | nil => simp
  | cons c s ih =>
      rw [List.flatMap_cons]
      simp only [List.length_append, List.length_cons]
      have := pyEscape_length_pos c
      omega

/-- The string-body parse at its call site, where fuel is input length plus one. -/
theorem parseStrBody_at_site (s : List Nat) (hs : ValidStr s) (rest : List Nat) :
    parseStrBody ((s.flatMap pyEscape ++ 0x22 :: rest).length + 1)
      (s.flatMap pyEscape ++ 0x22 :: rest) = some (s, rest) := by
  have hlen := flatMap_pyEscape_length s
  have h : (s.flatMap pyEscape ++ 0x22 :: rest).length + 1
      = s.length + ((s.flatMap pyEscape).length - s.length + rest.length + 1) + 1 := by
    simp only [List.length_append, List.length_cons]
    omega
  rw [h]
  exact parseStrBody_dumped s hs _ rest


theorem skipWs_sp (cs : List Nat) : skipWs (0x20 :: cs) = skipWs cs := by
  simp [skipWs]

theorem parseVal_ws (fuel : Nat) (cs : List Nat) :
    parseVal fuel (0x20 :: cs) = parseVal fuel cs := by
  cases fuel with
  | zero => rfl
  | succ f => simp only [parseVal, skipWs_sp]

theorem parseMembers_ws (fuel : Nat) (cs : List Nat) :
    parseMembers fuel (0x20 :: cs) = parseMembers fuel cs := by
  cases fuel with
  | zero => rfl
  | succ f => simp only [parseMembers, skipWs_sp]

theorem parseVal_string (s : List Nat) (hs : ValidStr s) (fuel : Nat) (rest : List Nat)
    (hf : 1 ≤ fuel) :
    parseVal fuel (0x22 :: (s.flatMap pyEscape ++ 0x22 :: rest)) = some (.str s, rest) := by
  obtain ⟨f, rfl⟩ : ∃ f, fuel = f + 1 := ⟨fuel - 1, by omega⟩
  simp only [parseVal]
  rw [skipWs_cons _ _ (by decide)]
  simp only [parseStrBody_at_site s hs rest]
  simp

theorem parseMembers_note2 (n : Note) (hb : ValidStr n.body) (fuel : Nat) (rest : List Nat)
    (hf : 2 ≤ fuel) :
    parseMembers fuel
      (0x22 :: (bodyKey.flatMap pyEscape ++
        (0x22 :: 0x3A :: 0x20 :: (0x22 :: (n.body.flatMap pyEscape ++ (0x22 :: 0x7D :: rest))))))
      = some ([(bodyKey, Json.str n.body)], rest) := by
  obtain ⟨f, rfl⟩ : ∃ f, fuel = f + 1 := ⟨fuel - 1, by omega⟩
  simp only [parseMembers]
  rw [skipWs_cons _ _ (by decide)]
  simp only [parseStrBody_at_site bodyKey (by decide)]
  rw [skipWs_cons _ _ (by decide)]
  simp only [parseVal_ws]
  rw [parseVal_string n.body hb _ _ (by omega)]
  dsimp only
  rw [skipWs_cons _ _ (by decide)]

theorem parseMembers_note (n : Note) (hn : ValidNote n) (fuel : Nat) (rest : List Nat)
    (hf : 3 ≤ fuel) :
    parseMembers fuel
      (0x22 :: (titleKey.flatMap pyEscape ++
        (0x22 :: 0x3A :: 0x20 :: (0x22 :: (n.title.flatMap pyEscape ++
          (0x22 :: 0x2C :: 0x20 :: (0x22 :: (bodyKey.flatMap pyEscape ++
            (0x22 :: 0x3A :: 0x20 :: (0x22 :: (n.body.flatMap pyEscape ++
              (0x22 :: 0x7D :: rest))))))))))))
      = some ([(titleKey, Json.str n.title), (bodyKey, Json.str n.body)], rest) := by
  obtain ⟨f, rfl⟩ : ∃ f, fuel = f + 1 := ⟨fuel - 1, by omega⟩
  simp only [parseMembers]
  rw [skipWs_cons _ _ (by decide)]
  simp only [parseStrBody_at_site titleKey (by decide)]
  rw [skipWs_cons _ _ (by decide)]
  simp only [parseVal_ws]
  rw [parseVal_string n.title hn.1 _ _ (by omega)]
  dsimp only
  rw [skipWs_cons _ _ (by decide)]
  simp only [parseMembers_ws]
  rw [parseMembers_note2 n hn.2 _ _ (by omega)]
  rfl

theorem parseVal_note (n : Note) (hn : ValidNote n) (fuel : Nat) (rest : List Nat)
    (hf : 4 ≤ fuel) :
    parseVal fuel (dumpNote n ++ rest) = some (noteJson n, rest) := by
  obtain ⟨f, rfl⟩ : ∃ f, fuel = f + 1 := ⟨fuel - 1, by omega⟩
  have harg : dumpNote n ++ rest
      = 0x7B :: (0x22 :: (titleKey.flatMap pyEscape ++
          (0x22 :: 0x3A :: 0x20 :: (0x22 :: (n.title.flatMap pyEscape ++
            (0x22 :: 0x2C :: 0x20 :: (0x22 :: (bodyKey.flatMap pyEscape ++
              (0x22 :: 0x3A :: 0x20 :: (0x22 :: (n.body.flatMap pyEscape ++
                (0x22 :: 0x7D :: rest)))))))))))) := by
    simp [dumpNote, dumpString]
  rw [harg]
  simp only [parseVal]
  rw [skipWs_cons _ _ (by decide)]
  dsimp only
  rw [if_neg (show ¬((0x7B : Nat) = 0x6E) from by decide)]
  rw [if_neg (show ¬((0x7B : Nat) = 0x74) from by decide)]
  rw [if_neg (show ¬((0x7B : Nat) = 0x66) from by decide)]
  rw [if_neg (show ¬((0x7B : Nat) = 0x22) from by decide)]
  rw [if_neg (show ¬((0x7B : Nat) = 0x5B) from by decide)]
  rw [if_pos (show (0x7B : Nat) = 0x7B from rfl)]
  rw [skipWs_cons _ _ (by decide)]
  dsimp only
  rw [parseMembers_note n hn _ _ (by omega)]
  simp [noteJson]

theorem parseElems_ws (fuel : Nat) (cs : List Nat) :
    parseElems fuel (0x20 :: cs) = parseElems fuel cs := by
  cases fuel with
  | zero => rfl
  | succ f => simp only [parseElems, parseVal_ws]

theorem dumpNote_length_ge (n : Note) : 25 ≤ (dumpNote n).length := by
  have h1 : (titleKey.flatMap pyEscape).length = 5 := rfl
  have h2 : (bodyKey.flatMap pyEscape).length = 4 := rfl
  simp only [dumpNote, dumpString, List.length_cons, List.length_append, h1, h2]
  omega

theorem parseElems_items (ns : List Note) (n : Note) :
    ∀ (fuel : Nat) (rest : List Nat), (∀ m ∈ n :: ns, ValidNote m) →
      (dumpItems (n :: ns)).length + 1 < fuel →
      parseElems fuel (dumpItems (n :: ns) ++ 0x5D :: rest)
        = some ((n :: ns).map noteJson, rest) := by
  induction ns generalizing n with
  | nil =>
      intro fuel rest hv hf
      obtain ⟨f, rfl⟩ : ∃ f, fuel = f + 1 := ⟨fuel - 1, by omega⟩
      have h25 := dumpNote_length_ge n
      simp only [dumpItems] at hf ⊢
      simp only [parseElems]
      rw [parseVal_note n (hv n (by simp)) _ _ (by omega)]
      dsimp only
      rw [skipWs_cons _ _ (by decide)]
      simp
  | cons m ms ih =>
      intro fuel rest hv hf
      obtain ⟨f, rfl⟩ : ∃ f, fuel = f + 1 := ⟨fuel - 1, by omega⟩
      have h25 := dumpNote_length_ge n
      have hlen : (dumpItems (n :: m :: ms)).length
          = (dumpNote n).length + 2 + (dumpItems (m :: ms)).length := by
        simp [dumpItems]
        omega
      have harg : dumpItems (n :: m :: ms) ++ 0x5D :: rest
          = dumpNote n ++ (0x2C :: 0x20 :: (dumpItems (m :: ms) ++ 0x5D :: rest)) := by
        simp [dumpItems]
      rw [harg]
      simp only [parseElems]
      rw [parseVal_note n (hv n (by simp)) _ _ (by omega)]
      dsimp only
      rw [skipWs_cons _ _ (by decide)]
      dsimp only
      rw [parseElems_ws]
      rw [ih m f rest (fun x hx => hv x (List.mem_cons_of_mem n hx)) (by omega)]
      rfl

theorem dumpItems_cons_head (n : Note) (ns : List Note) :
    ∃ t, dumpItems (n :: ns) = 0x7B :: t := by
  cases ns with
  | nil => exact ⟨_, rfl⟩
  | cons m ms => exact ⟨_, rfl⟩

theorem json_loads_dumps (notes : List Note) (hv : ∀ m ∈ notes, ValidNote m) :
    json_loads (json_dumps notes) = some (notesJson notes) := by
  cases notes with
  | nil => rfl
  | cons n ns =>
      obtain ⟨t, ht⟩ := dumpItems_cons_head n ns
      unfold json_loads
      have harg : json_dumps (n :: ns) = 0x5B :: (dumpItems (n :: ns) ++ 0x5D :: []) := rfl
      rw [harg, ht]
      simp only [List.cons_append]
      simp only [parseVal]
      rw [skipWs_cons _ _ (by decide)]
      dsimp only
      rw [if_neg (show ¬((0x5B : Nat) = 0x6E) from by decide)]
      rw [if_neg (show ¬((0x5B : Nat) = 0x74) from by decide)]
      rw [if_neg (show ¬((0x5B : Nat) = 0x66) from by decide)]
      rw [if_neg (show ¬((0x5B : Nat) = 0x22) from by decide)]
      rw [if_pos (show (0x5B : Nat) = 0x5B from rfl)]
      rw [skipWs_cons _ _ (by decide)]
      dsimp only
      have hback : (0x7B : Nat) :: (t ++ 0x5D :: []) = dumpItems (n :: ns) ++ 0x5D :: [] := by
        rw [ht]
        simp [List.cons_append]
      rw [hback]
      rw [parseElems_items ns n _ [] hv
        (by simp only [List.length_cons, List.length_append]; omega)]
      rfl

/-! ## Helper lemmas: the store pipeline -/

/-- Loading a file saved under the same key gives back the dumped JSON. -/
theorem load_save_roundtrip (notes : List Note) (key nonce : List Nat)
    (hv : ∀ m ∈ notes, ValidNote m) :
    load_notes key (some (save_notes notes key nonce)) = .ok (notesJson notes) := by
  unfold load_notes save_notes
  dsimp only
  rw [fernet_roundtrip]
  dsimp only
  rw [json_loads_dumps notes hv]

/-- Reading one dumped note back through the schema gives the note. -/
theorem jsonToNote_noteJson (n : Note) : jsonToNote (noteJson n) = some n := rfl

/-- Reading the dumped collection back through the schema gives the list. -/
theorem jsonToNotes_notesJson : ∀ notes : List Note, jsonToNotes (notesJson notes) = some notes
  | [] => rfl
  | n :: ns => by
      have ih : List.mapM jsonToNote (List.map noteJson ns) = some ns :=
        jsonToNotes_notesJson ns
      show List.mapM jsonToNote (noteJson n :: List.map noteJson ns) = some (n :: ns)
      rw [List.mapM_cons, jsonToNote_noteJson, ih]
      rfl

/-! ## Helper lemmas: a derived-key collision exists

make_key maps the infinitely many passwords onto the finitely many 44-byte
ASCII strings, so two distinct passwords share a key; this is what makes the
universally quantified wrong-password claim false as stated. -/

/-- Lists of a fixed length over a bounded alphabet form a finite set. -/
theorem finite_bounded_lists (k : Nat) :
    ∀ n : Nat, {l : List Nat | l.length = n ∧ ∀ x ∈ l, x < k}.Finite := by
  intro n
  induction n with
  | zero =>
      apply Set.Finite.subset (Set.finite_singleton ([] : List Nat))
      rintro l ⟨hlen, -⟩
      simp only [List.length_eq_zero] at hlen
      simp [hlen]
  | succ m ih =>
      apply Set.Finite.subset (Set.Finite.image (fun p : Nat × List Nat => p.1 :: p.2)
        (Set.Finite.prod (Set.finite_Iio k) ih))
      rintro l ⟨hlen, hb⟩
      cases l with
      | nil => simp at hlen
      | cons c cs =>
          refine ⟨(c, cs), ?_, rfl⟩
          constructor
          · exact hb c (by simp)
          · exact ⟨by simpa using hlen, fun x hx => hb x (by simp [hx])⟩

/-- Two distinct passwords with the same derived Fernet key exist. -/
theorem make_key_collision : ∃ p q : List Nat, p ≠ q ∧ make_key p = make_key q := by
  have hmap : Set.MapsTo (fun n : Nat => make_key (List.replicate n 0x61)) Set.univ
      {l : List Nat | l.length = 44 ∧ ∀ x ∈ l, x < 128} := by
    intro n _
    exact ⟨make_key_length _, fun x hx => b64_bytes_lt _ x hx⟩
  obtain ⟨a, -, b, -, hab, heq⟩ :=
    Set.infinite_univ.exists_ne_map_eq_of_mapsTo hmap (finite_bounded_lists 128 44)
  refine ⟨List.replicate a 0x61, List.replicate b 0x61, ?_, heq⟩
  intro hcon
  apply hab
  have hlen := congrArg List.length hcon
  simpa using hlen

/-- Loading a file saved under a different key fails as InvalidToken. -/
theorem load_save_wrong_key (notes : List Note) (k1 k2 nonce : List Nat) (h : k1 ≠ k2) :
    load_notes k2 (some (save_notes notes k1 nonce)) = .invalidToken := by
  unfold load_notes save_notes
  dsimp only
  rw [fernet_wrong_key k1 k2 nonce _ h]

/-! ## The claims -/

/-- C1: Round-trip. For every note collection and password, decoding the bytes
save_notes produced under the key derived from that password, with the same
password's key, returns the dumped JSON of the collection, and reading that
JSON through the note schema gives back exactly the original list, order and
fields preserved. The validity hypothesis says every title and body is a
sequence of Unicode scalar values, which is what Python text holds. -/
theorem claim_c1_roundtrip (notes : List Note) (password nonce : List Nat)
    (hv : ∀ m ∈ notes, ValidNote m) :
    load_notes (make_key password) (some (save_notes notes (make_key password) nonce))
      = .ok (notesJson notes) ∧ jsonToNotes (notesJson notes) = some notes :=
  ⟨load_save_roundtrip notes _ nonce hv, jsonToNotes_notesJson notes⟩

/-- Witness for C1 at a concrete one-note collection and password "pw". -/
theorem claim_c1_roundtrip_witness :
    (∀ m ∈ [(⟨[0x54], [0x42]⟩ : Note)], ValidNote m) ∧
    (load_notes (make_key [0x70, 0x77])
        (some (save_notes [⟨[0x54], [0x42]⟩] (make_key [0x70, 0x77]) [1, 2]))
      = .ok (notesJson [⟨[0x54], [0x42]⟩]) ∧
     jsonToNotes (notesJson [⟨[0x54], [0x42]⟩]) = some [⟨[0x54], [0x42]⟩]) :=
  ⟨by decide, claim_c1_roundtrip [⟨[0x54], [0x42]⟩] [0x70, 0x77] [1, 2] (by decide)⟩

/-- C2 counterexample: the claim quantifies over all pairs of distinct
passwords, but make_key maps infinitely many passwords onto finitely many
44-byte keys, so some two distinct passwords share a key, and for them
decoding succeeds and returns the collection instead of failing. -/
theorem claim_c2_counterexample :
    ∃ p1 p2 : List Nat, p1 ≠ p2 ∧
      load_notes (make_key p2) (some (save_notes [] (make_key p1) [])) = .ok (Json.arr []) := by
  obtain ⟨p, q, hpq, hk⟩ := make_key_collision
  refine ⟨p, q, hpq, ?_⟩
  rw [← hk]
  exact load_save_roundtrip [] (make_key p) [] (by simp)

/-- C2 amended: for every pair of passwords whose derived keys differ (which
is every pair except SHA-256 collisions), decoding a store encoded under the
first password's key with the second password's key fails with
InvalidToken, the outcome main reports as wrong password or corrupt file. -/
theorem claim_c2_wrong_password (notes : List Note) (p1 p2 nonce : List Nat)
    (h : make_key p1 ≠ make_key p2) :
    load_notes (make_key p2) (some (save_notes notes (make_key p1) nonce))
      = .invalidToken :=
  load_save_wrong_key notes _ _ nonce h

/-- Witness for the amended C2 at passwords "a" and "b". -/
theorem claim_c2_wrong_password_witness :
    make_key [0x61] ≠ make_key [0x62] ∧
    load_notes (make_key [0x62]) (some (save_notes [] (make_key [0x61]) [7]))
      = .invalidToken :=
  ⟨by decide, claim_c2_wrong_password [] [0x61] [0x62] [7] (by decide)⟩

/-- C3: Tamper detection. Flipping any single bit of a store file written by
save_notes makes decoding fail with InvalidToken for every password; no
plaintext is returned. The cipher is the ideal model of the external Fernet
AEAD, whose contract is exactly this fail-closed behavior. -/
theorem claim_c3_tamper (notes : List Note) (p1 nonce : List Nat) (i : Nat)
    (hi : i < 8 * (save_notes notes (make_key p1) nonce).length) (p2 : List Nat) :
    load_notes (make_key p2) (some (flipBit (save_notes notes (make_key p1) nonce) i))
      = .invalidToken := by
  unfold save_notes at hi ⊢
  unfold load_notes
  dsimp only
  rw [fernet_flip_none (make_key p2) (make_key p1) nonce (json_dumps notes) i hi]

/-- Witness for C3: flipping the first bit of a concrete store file. -/
theorem claim_c3_tamper_witness :
    0 < 8 * (save_notes [] (make_key [0x70]) []).length ∧
    load_notes (make_key [0x71]) (some (flipBit (save_notes [] (make_key [0x70]) []) 0))
      = .invalidToken :=
  ⟨by decide, claim_c3_tamper [] [0x70] [] 0 (by decide) [0x71]⟩

/-- C4: the key the program uses to open a store is derived from the password
alone; no salt exists anywhere in the pipeline, so the derived key is the
same for every store file, contradicting the claimed salted derivation. -/
theorem claim_c4_unsalted (password : List Nat) (file1 file2 : Option (List Nat)) :
    keyForOpen password file1 = keyForOpen password file2 ∧
    keyForOpen password file1 = make_key password :=
  ⟨rfl, rfl⟩

/-- C5: save_notes opens the store file with mode wb, which truncates it in
place, then writes the token; the trace holds no temporary file, sync, or
rename, and a crash between the truncation and the write leaves the file
empty rather than byte-identical to its previous contents. -/
theorem claim_c5_truncate_then_write (orig : Option (List Nat)) (token : List Nat) :
    save_notes_fsTrace token = [FsOp.openTrunc, FsOp.writeAll token] ∧
    runFs orig (save_notes_fsTrace token) = some token ∧
    crashAfter orig (save_notes_fsTrace token) 1 = some [] :=
  ⟨rfl, rfl, rfl⟩

/-- C6: Empty store. Opening with no file present yields the empty collection
for any password without touching the cipher, and after save_new_note adds
the note with title T and body B, reopening with the same password yields
exactly that one note. -/
theorem claim_c6_empty_store :
    (∀ key : List Nat, load_notes key none = .ok (Json.arr [])) ∧
    (∀ password nonce : List Nat,
      load_notes (make_key password)
          (save_new_note ⟨[], none⟩ [0x54] [0x42] (make_key password) nonce).file
        = .ok (notesJson [⟨[0x54], [0x42]⟩]) ∧
      jsonToNotes (notesJson [⟨[0x54], [0x42]⟩]) = some [⟨[0x54], [0x42]⟩]) := by
  refine ⟨fun key => rfl, fun password nonce => ⟨?_, rfl⟩⟩
  exact load_save_roundtrip [⟨[0x54], [0x42]⟩] _ nonce (by decide)

/-- C7: Bounds. With an index at or past the end of the collection (in
particular index 0 on an empty collection), save_edited_note and delete_note
raise IndexError before mutating anything: the state, collection and file
come back unchanged and save_notes is never reached. -/
theorem claim_c7_bounds (s : AppState) (idx : Nat) (t b key nonce : List Nat)
    (h : s.notes.length ≤ idx) :
    save_edited_note s idx t b key nonce = (s, some PyErr.indexError) ∧
    delete_note s idx key nonce = (s, some PyErr.indexError) := by
  unfold save_edited_note delete_note
  rw [if_neg (by omega), if_neg (by omega)]
  exact ⟨rfl, rfl⟩

/-- Witness for C7: index 0 on the empty collection. -/
theorem claim_c7_bounds_witness :
    (([] : List Note).length ≤ 0) ∧
    (save_edited_note ⟨[], none⟩ 0 [] [] [] [] = (⟨[], none⟩, some PyErr.indexError) ∧
     delete_note ⟨[], none⟩ 0 [] [] = (⟨[], none⟩, some PyErr.indexError)) :=
  ⟨by decide, claim_c7_bounds ⟨[], none⟩ 0 [] [] [] [] (by decide)⟩

/-- C8: the store file below decrypts to the JSON text for a list holding the
single string x, which is not a note record; load_notes returns it as ok
without any schema check (jsonToNotes, the schema reading, rejects it),
so no MalformedRecord outcome exists in the code. -/
theorem claim_c8_no_schema_check :
    load_notes (make_key [0x70])
        (some (fernetEncrypt (make_key [0x70]) [9] [0x5B, 0x22, 0x78, 0x22, 0x5D]))
      = .ok (Json.arr [Json.str [0x78]]) ∧
    jsonToNotes (Json.arr [Json.str [0x78]]) = none := by
  constructor
  · unfold load_notes
    dsimp only
    rw [fernet_roundtrip]
    rfl
  · rfl

/-- C9: Determinism and totality of derivation. make_key is a total function
of the password (the code takes no salt or parameters), equal inputs give
equal keys, and the key always exists: a 32-byte SHA-256 digest encoded as
a 44-byte base64 Fernet key. -/
theorem claim_c9_derivation_total (p1 p2 : List Nat) (h : p1 = p2) :
    make_key p1 = make_key p2 ∧
    (sha256 (utf8Encode p1)).length = 32 ∧ (make_key p1).length = 44 :=
  ⟨congrArg make_key h, sha256_length _, make_key_length _⟩

/-- Witness for C9 at the password "a". -/
theorem claim_c9_derivation_total_witness :
    ([0x61] : List Nat) = [0x61] ∧
    (make_key [0x61] = make_key [0x61] ∧
     (sha256 (utf8Encode [0x61])).length = 32 ∧ (make_key [0x61]).length = 44) :=
  ⟨by decide, claim_c9_derivation_total [0x61] [0x61] (by decide)⟩

/-- C10: Frame property of the mutations. At a valid index, save_edited_note
replaces exactly the element at that index and leaves every other position
unchanged; delete_note removes exactly that element, earlier notes keeping
their positions and later notes shifting down by one in order. -/
theorem claim_c10_frame (s : AppState) (idx : Nat) (t b key nonce : List Nat)
    (h : idx < s.notes.length) :
    ((save_edited_note s idx t b key nonce).1.notes.length = s.notes.length ∧
     ((save_edited_note s idx t b key nonce).1.notes)[idx]? = some ⟨t, b⟩ ∧
     (∀ j, j ≠ idx → ((save_edited_note s idx t b key nonce).1.notes)[j]? = s.notes[j]?)) ∧
    ((delete_note s idx key nonce).1.notes.length = s.notes.length - 1 ∧
     (∀ j, j < idx → ((delete_note s idx key nonce).1.notes)[j]? = s.notes[j]?) ∧
     (∀ j, idx ≤ j → ((delete_note s idx key nonce).1.notes)[j]? = s.notes[j + 1]?)) := by
  unfold save_edited_note delete_note
  rw [if_pos h, if_pos h]
  dsimp only
  refine ⟨⟨by simp, ?_, ?_⟩, by simp [List.length_eraseIdx, h], ?_, ?_⟩
  · rw [List.getElem?_set]
    simp [h]
  · intro j hj
    rw [List.getElem?_set]
    rw [if_neg (fun hh => hj hh.symm)]
  · intro j hj
    rw [List.getElem?_eraseIdx, if_pos hj]
  · intro j hj
    rw [List.getElem?_eraseIdx, if_neg (by omega)]

/-- Witness for C10 at a two-note collection and index 0. -/
theorem claim_c10_frame_witness :
    (0 < demoState.notes.length) ∧
    (((save_edited_note demoState 0 [5] [6] [] []).1.notes.length
        = demoState.notes.length ∧
      ((save_edited_note demoState 0 [5] [6] [] []).1.notes)[0]? = some ⟨[5], [6]⟩ ∧
      (∀ j, j ≠ 0 →
        ((save_edited_note demoState 0 [5] [6] [] []).1.notes)[j]? = demoState.notes[j]?)) ∧
     ((delete_note demoState 0 [] []).1.notes.length = demoState.notes.length - 1 ∧
      (∀ j, j < 0 →
        ((delete_note demoState 0 [] []).1.notes)[j]? = demoState.notes[j]?) ∧
      (∀ j, 0 ≤ j →
        ((delete_note demoState 0 [] []).1.notes)[j]? = demoState.notes[j + 1]?))) :=
  ⟨by decide, claim_c10_frame demoState 0 [5] [6] [] [] (by decide)⟩
